import Mathlib

/-!
Verification of the discovery-server core of this repository
(src/yt/yt/server/lib/discovery_server/discovery_server.cpp) against its
natural-language specification.  Times are natural numbers of microseconds
since epoch; `TInstant - TInstant` in the source yields a saturating
unsigned duration, which natural subtraction models exactly.  Attribute
maps are association lists from string keys to opaque byte values
(modelled as strings).  Components whose implementation files
(member.cpp, group.cpp, group_manager.cpp) are not part of the source
tree are modelled from the specification; each such definition is marked
in its doc comment.
-/

namespace DiscoveryServer

abbrev GroupId := String
abbrev MemberId := String
abbrev AttrKey := String
abbrev AttrValue := String
abbrev Address := String

/-- Association-list lookup with decidable string keys. -/
def alookup (k : String) : List (String × α) → Option α
  | [] => none
  | (k', v) :: rest => if k' = k then some v else alookup k rest

/-- Association-list update-or-insert: applies f to the current binding
(or to none) and stores the result under k. -/
def aupdate (k : String) (f : Option α → α) : List (String × α) → List (String × α)
  | [] => [(k, f none)]
  | (k', v) :: rest =>
      if k' = k then (k', f (some v)) :: rest else (k', v) :: aupdate k f rest

/-- Member record (TMember).  Field names follow the source accessors. -/
structure TMember where
  Id : MemberId
  GroupId : GroupId
  Priority : Int
  Attributes : List (AttrKey × AttrValue)
  Revision : Nat
  LeaseDeadline : Nat
  LastGossipAttributesUpdateTime : Nat
  LastHeartbeatAt : Nat
deriving DecidableEq, Repr

/-- Client-supplied member info in a Heartbeat request. -/
structure TMemberInfo where
  Id : MemberId
  Priority : Int
  Attributes : List (AttrKey × AttrValue)
deriving DecidableEq, Repr

/-- One entry of a ProcessGossip request: groupId, memberId, revision,
priority, absolute lease deadline, and optional attributes. -/
structure TGossipMemberInfo where
  GroupId : GroupId
  Id : MemberId
  Priority : Int
  Revision : Nat
  LeaseDeadline : Nat
  Attributes : Option (List (AttrKey × AttrValue))
deriving DecidableEq, Repr

/-- Modelled from the spec: member.cpp is not in the source tree.
UpdateFromHeartbeat (spec 4.1): bump Revision by one, replace Priority,
replace Attributes only when the incoming set is non-empty, set
LeaseDeadline to now + leaseDuration, set LastHeartbeatAt to now. -/
def updateFromHeartbeat (m : TMember) (info : TMemberInfo)
    (leaseDuration now : Nat) : TMember :=
  { m with
    Revision := m.Revision + 1
    Priority := info.Priority
    Attributes := if info.Attributes.isEmpty then m.Attributes else info.Attributes
    LeaseDeadline := now + leaseDuration
    LastHeartbeatAt := now }

/-- Modelled from the spec: member.cpp is not in the source tree.
UpdateFromGossip (spec 4.1): if the incoming revision is not greater than
the local one, ignore; otherwise replace Revision, Priority and
LeaseDeadline (peer-supplied deadline taken verbatim) and replace
Attributes only when the entry carries attributes. -/
def updateFromGossip (m : TMember) (g : TGossipMemberInfo) : TMember :=
  if g.Revision ≤ m.Revision then m
  else
    { m with
      Revision := g.Revision
      Priority := g.Priority
      LeaseDeadline := g.LeaseDeadline
      Attributes :=
        match g.Attributes with
        | some attrs => attrs
        | none => m.Attributes }

/-- Modelled from the spec: a freshly created member starts empty
(Group.Upsert creates an empty member; its first revision is assigned by
the first update applied to it). -/
def emptyMember (gid : GroupId) (mid : MemberId) : TMember :=
  { Id := mid
    GroupId := gid
    Priority := 0
    Attributes := []
    Revision := 0
    LeaseDeadline := 0
    LastGossipAttributesUpdateTime := 0
    LastHeartbeatAt := 0 }

/-- A group is a mapping from member id to member. -/
abbrev TGroup := List (MemberId × TMember)

/-- GroupManager state: the group registry plus the change set of
members modified since the last drain, keyed by (groupId, memberId). -/
structure TGroupManager where
  Groups : List (GroupId × TGroup)
  ModifiedMembers : List (GroupId × MemberId)
deriving DecidableEq, Repr

/-- Change-set insert: keyed by (groupId, memberId); repeated mutations
between drains coalesce to a single key. -/
def csInsert (k : GroupId × MemberId) (cs : List (GroupId × MemberId)) :
    List (GroupId × MemberId) :=
  if k ∈ cs then cs else cs ++ [k]

/-- Modelled from the spec: group_manager.cpp is not in the source tree.
ProcessHeartbeat (spec 4.3): resolve or create the group and the member,
apply UpdateFromHeartbeat, insert the member into the change set.  Expiry
timers are realized lazily through LeaseDeadline comparisons. -/
def processHeartbeat (gm : TGroupManager) (gid : GroupId)
    (info : TMemberInfo) (leaseDuration now : Nat) : TGroupManager :=
  { Groups :=
      aupdate gid (fun g? =>
        aupdate info.Id (fun m? =>
          updateFromHeartbeat (m?.getD (emptyMember gid info.Id)) info leaseDuration now)
          (g?.getD [])) gm.Groups
    ModifiedMembers := csInsert (gid, info.Id) gm.ModifiedMembers }

/-- Modelled from the spec: group_manager.cpp is not in the source tree.
One entry of ProcessGossip (spec 4.3): resolve or create the group and
member, apply UpdateFromGossip, and add the key to the change set when
the entry caused a mutation (a newly created member counts as one). -/
def applyGossipEntry (gm : TGroupManager) (e : TGossipMemberInfo) : TGroupManager :=
  let old? := alookup e.Id ((alookup e.GroupId gm.Groups).getD [])
  let oldM := old?.getD (emptyMember e.GroupId e.Id)
  let newM := updateFromGossip oldM e
  { Groups :=
      aupdate e.GroupId (fun g? => aupdate e.Id (fun _ => newM) (g?.getD [])) gm.Groups
    ModifiedMembers :=
      if old?.isNone || newM ≠ oldM
      then csInsert (e.GroupId, e.Id) gm.ModifiedMembers
      else gm.ModifiedMembers }

/-- Modelled from the spec: GroupManager.ProcessGossip applies a batch
entry by entry, in order. -/
def processGossip (gm : TGroupManager) (batch : List TGossipMemberInfo) : TGroupManager :=
  batch.foldl applyGossipEntry gm

/-- Discovery-server configuration fields used by the gossip driver and
the peer service (TDiscoveryServerConfig). -/
structure TDiscoveryServerConfig where
  SelfAddress : Address
  ServerAddresses : List Address
  AttributesUpdatePeriod : Nat
  GossipBatchSize : Nat
deriving Repr

/-- One member entry of an outgoing ProcessGossip payload. -/
structure TGossipPayloadEntry where
  GroupId : GroupId
  Id : MemberId
  Priority : Int
  Revision : Nat
  LeaseDeadline : Nat
  Attributes : Option (List (AttrKey × AttrValue))
deriving DecidableEq, Repr

/-- Payload entry built by TDiscoveryServer::SendGossip for one drained
member: always id, priority, revision, groupId and leaseDeadline;
attributes are attached only when
tickStart - LastGossipAttributesUpdateTime > AttributesUpdatePeriod
(strict comparison, saturating subtraction). -/
def buildGossipEntry (tickStart period : Nat) (m : TMember) : TGossipPayloadEntry :=
  { GroupId := m.GroupId
    Id := m.Id
    Priority := m.Priority
    Revision := m.Revision
    LeaseDeadline := m.LeaseDeadline
    Attributes :=
      if period < tickStart - m.LastGossipAttributesUpdateTime
      then some m.Attributes
      else none }

set_option linter.unusedVariables false in
/-- Payload built inside the per-address loop of SendGossip.  The address
is in scope in the source loop body but does not influence the entries. -/
def buildGossipPayload (cfg : TDiscoveryServerConfig) (drained : List TMember)
    (tickStart : Nat) (address : Address) : List TGossipPayloadEntry :=
  drained.map (buildGossipEntry tickStart cfg.AttributesUpdatePeriod)

/-- Result of one SendGossip tick: the dispatched payloads (one per
non-self address, in configuration order) and the drained members after
the post-dispatch timestamp update. -/
structure TickResult where
  payloads : List (Address × List TGossipPayloadEntry)
  members : List TMember
deriving Repr

/-- TDiscoveryServer::SendGossip on an already-drained member list: for
each configured address other than SelfAddress build and dispatch one
payload; afterwards set LastGossipAttributesUpdateTime to the tick start
on every drained member passing the attribute-throttle test. -/
def sendGossip (cfg : TDiscoveryServerConfig) (drained : List TMember)
    (tickStart : Nat) : TickResult :=
  { payloads :=
      (cfg.ServerAddresses.filter (fun a => a ≠ cfg.SelfAddress)).map
        (fun addr => (addr, buildGossipPayload cfg drained tickStart addr))
    members :=
      drained.map (fun m =>
        if cfg.AttributesUpdatePeriod < tickStart - m.LastGossipAttributesUpdateTime
        then { m with LastGossipAttributesUpdateTime := tickStart }
        else m) }

deriving instance DecidableEq for Except

/-- Error kinds surfaced by the client-facing RPC handlers. -/
inductive TDiscoveryError where
  | InvalidArgument
  | GroupNotFound
deriving DecidableEq, Repr

/-- Live members of a group at a given time: those whose lease deadline
lies strictly in the future. -/
def liveMembers (g : TGroup) (now : Nat) : List TMember :=
  (g.map Prod.snd).filter (fun m => decide (now < m.LeaseDeadline))

/-- Modelled from the spec: group_manager.cpp is not in the source tree.
GetGroupOrThrow (spec 4.3 and 7): fails with GroupNotFound when there is
no such group or the group has no live members. -/
def getGroupOrThrow (gm : TGroupManager) (gid : GroupId) (now : Nat) :
    Except TDiscoveryError TGroup :=
  match alookup gid gm.Groups with
  | none => Except.error TDiscoveryError.GroupNotFound
  | some g =>
      if (liveMembers g now).isEmpty
      then Except.error TDiscoveryError.GroupNotFound
      else Except.ok g

/-- Ranking relation of Group.List: ascending by Priority, ties broken by
lexicographically ascending Id. -/
def memberLE (a b : TMember) : Bool :=
  decide (a.Priority < b.Priority) ||
    (decide (a.Priority = b.Priority) && decide (a.Id ≤ b.Id))

/-- Modelled from the spec: group.cpp is not in the source tree.
Group.List(limit) (spec 4.2): expired members are filtered out, the rest
are sorted ascending by (Priority, Id) and at most limit are returned. -/
def listMembers (g : TGroup) (now limit : Nat) : List TMember :=
  (((liveMembers g now).mergeSort memberLE).take limit)

/-- Member view emitted by the ListMembers handler: id, priority and the
projected attribute entries. -/
structure TMemberView where
  Id : MemberId
  Priority : Int
  Attributes : List (AttrKey × AttrValue)
deriving DecidableEq, Repr

/-- TClientDiscoveryService::ListMembers: resolve the group through
GetGroupOrThrow, list up to limit members, and for each member emit id,
priority and, for each requested attribute key in request order, the
corresponding value when the member has it (absent keys are skipped). -/
def listMembersHandler (gm : TGroupManager) (gid : GroupId)
    (limit : Nat) (attributeKeys : List AttrKey) (now : Nat) :
    Except TDiscoveryError (List TMemberView) :=
  match getGroupOrThrow gm gid now with
  | Except.error e => Except.error e
  | Except.ok group =>
      Except.ok ((listMembers group now limit).map (fun m =>
        { Id := m.Id
          Priority := m.Priority
          Attributes := attributeKeys.filterMap (fun k =>
            (alookup k m.Attributes).map (fun v => (k, v))) }))

/-- TClientDiscoveryService::GetGroupMeta: resolve the group through
GetGroupOrThrow and return the live member count. -/
def getGroupMetaHandler (gm : TGroupManager) (gid : GroupId) (now : Nat) :
    Except TDiscoveryError Nat :=
  match getGroupOrThrow gm gid now with
  | Except.error e => Except.error e
  | Except.ok group => Except.ok (liveMembers group now).length

/-- TClientDiscoveryService::Heartbeat (source lines 117-131): parses the
request and forwards it unconditionally to GroupManager.ProcessHeartbeat;
the handler performs no validation of its own. -/
def heartbeatHandler (gm : TGroupManager) (gid : GroupId) (info : TMemberInfo)
    (leaseTimeout now : Nat) : Except TDiscoveryError TGroupManager :=
  Except.ok (processHeartbeat gm gid info leaseTimeout now)

/-- The group-manager state with no groups and an empty change set. -/
def emptyGroupManager : TGroupManager :=
  { Groups := [], ModifiedMembers := [] }

/-- Concrete member used in counterexamples. -/
def cexMember : TMember :=
  { Id := "m1"
    GroupId := "g"
    Priority := 5
    Attributes := [("host", "h1")]
    Revision := 7
    LeaseDeadline := 1000
    LastGossipAttributesUpdateTime := 0
    LastHeartbeatAt := 0 }

/-- Configuration with no peer other than the server itself, used to
refute C8 as stated. -/
def cexSoloConfig : TDiscoveryServerConfig :=
  { SelfAddress := "s0"
    ServerAddresses := ["s0"]
    AttributesUpdatePeriod := 60
    GossipBatchSize := 1000 }

/-- Concrete two-server configuration (self plus one peer) used in
witnesses. -/
def cexPairConfig : TDiscoveryServerConfig :=
  { SelfAddress := "s0"
    ServerAddresses := ["s0", "s1"]
    AttributesUpdatePeriod := 60
    GossipBatchSize := 1000 }

/-- Concrete three-server configuration (self plus two peers) used in
witnesses. -/
def cexFanConfig : TDiscoveryServerConfig :=
  { SelfAddress := "s0"
    ServerAddresses := ["s0", "s1", "s2"]
    AttributesUpdatePeriod := 60
    GossipBatchSize := 1000 }

/-- Sub-batch sequence formed by the receive loop of
TServerDiscoveryService::ProcessGossip (source lines 175-192): entries
are accumulated in request order and a sub-batch is emitted as soon as
its size reaches GossipBatchSize; the non-empty remainder is emitted
after the loop. -/
def gossipBatchLoop (B : Nat) (batch : List TGossipMemberInfo) :
    List TGossipMemberInfo → List (List TGossipMemberInfo)
  | [] => if batch.isEmpty then [] else [batch]
  | e :: rest =>
      if B ≤ (batch ++ [e]).length
      then (batch ++ [e]) :: gossipBatchLoop B [] rest
      else gossipBatchLoop B (batch ++ [e]) rest

/-- Sub-batches into which the PeerService handler splits an incoming
ProcessGossip request. -/
def gossipSubBatches (B : Nat) (entries : List TGossipMemberInfo) :
    List (List TGossipMemberInfo) :=
  gossipBatchLoop B [] entries

/-- State evolution of the receive loop of
TServerDiscoveryService::ProcessGossip: each sub-batch is applied through
GroupManager.ProcessGossip the moment it fills; the remainder is applied
after the loop. -/
def serverProcessGossipLoop (B : Nat) (gm : TGroupManager)
    (batch : List TGossipMemberInfo) :
    List TGossipMemberInfo → TGroupManager
  | [] => if batch.isEmpty then gm else processGossip gm batch
  | e :: rest =>
      if B ≤ (batch ++ [e]).length
      then serverProcessGossipLoop B (processGossip gm (batch ++ [e])) [] rest
      else serverProcessGossipLoop B gm (batch ++ [e]) rest

/-- TServerDiscoveryService::ProcessGossip: final group-manager state
after handling a request with the given entries. -/
def serverProcessGossip (B : Nat) (gm : TGroupManager)
    (entries : List TGossipMemberInfo) : TGroupManager :=
  serverProcessGossipLoop B gm [] entries

/-- Concrete gossip entry used in witnesses. -/
def cexGossipEntry : TGossipMemberInfo :=
  { GroupId := "g"
    Id := "m1"
    Priority := 5
    Revision := 1
    LeaseDeadline := 1000
    Attributes := some [("host", "h1")] }

/-- Five concrete gossip entries, split 2 + 2 + 1 under batch size 2. -/
def cexEntries : List TGossipMemberInfo := List.replicate 5 cexGossipEntry

/-- Revision of the member stored under (gid, mid), when present. -/
def memberRevision (gm : TGroupManager) (gid : GroupId) (mid : MemberId) :
    Option Nat :=
  (alookup mid ((alookup gid gm.Groups).getD [])).map TMember.Revision

/-- One registry transition: a heartbeat ingestion or the application of
a gossip batch. -/
inductive GMStep : TGroupManager → TGroupManager → Prop where
  | heartbeat (gm : TGroupManager) (gid : GroupId) (info : TMemberInfo)
      (leaseDuration now : Nat) :
      GMStep gm (processHeartbeat gm gid info leaseDuration now)
  | gossip (gm : TGroupManager) (batch : List TGossipMemberInfo) :
      GMStep gm (processGossip gm batch)

/-- Concrete heartbeat info used in witnesses. -/
def cexInfo : TMemberInfo :=
  { Id := "m1", Priority := 5, Attributes := [("host", "h1")] }

/-- Registry after one heartbeat on the empty registry. -/
def cexAfterHeartbeat : TGroupManager :=
  processHeartbeat emptyGroupManager "g" cexInfo 30 0

/-- Registry after that heartbeat followed by one gossip batch. -/
def cexAfterGossip : TGroupManager :=
  processGossip cexAfterHeartbeat [cexGossipEntry]

/-- Looking up the key just stored by aupdate yields the stored value. -/
theorem alookup_aupdate_self (k : String) (f : Option α → α)
    (l : List (String × α)) :
    alookup k (aupdate k f l) = some (f (alookup k l)) := by
  induction l with
  | nil => simp [alookup, aupdate]
  | cons hd tl ih =>
    obtain ⟨k', v⟩ := hd
    by_cases h : k' = k
    · simp [alookup, aupdate, h]
    · simp [alookup, aupdate, h, ih]

/-- Storing under one key leaves lookups of any other key unchanged. -/
theorem alookup_aupdate_other (k k' : String) (hkk : k ≠ k')
    (f : Option α → α) (l : List (String × α)) :
    alookup k' (aupdate k f l) = alookup k' l := by
  induction l with
  | nil => simp [alookup, aupdate, hkk]
  | cons hd tl ih =>
    obtain ⟨k₀, v⟩ := hd
    by_cases h : k₀ = k
    · subst h
      simp [alookup, aupdate, hkk]
    · simp [alookup, aupdate, h, ih]

/-- C1 counterexample: with AttributesUpdatePeriod = 60, a member whose
attributes were last pushed at time 0 and a tick starting at time 60
satisfies tickStart - LastGossipAttributesPushedAt >= AttributesUpdatePeriod,
yet the constructed payload entry carries no attributes: the source tests
strict inequality, not the claimed non-strict one. -/
theorem C1_counterexample :
    60 - cexMember.LastGossipAttributesUpdateTime ≥ 60 ∧
    (buildGossipEntry 60 60 cexMember).Attributes = none := by
  constructor
  · decide
  · rfl

/-- C1 amended: in every tick, a member's attributes are included in the
outgoing payload entry if and only if tickStart minus the member's
LastGossipAttributesPushedAt is STRICTLY GREATER than
AttributesUpdatePeriod; whether or not attributes are included, the entry
carries the member's groupId, memberId, revision, priority and
leaseDeadline. -/
theorem C1_attribute_throttle (tickStart period : Nat) (m : TMember) :
    ((buildGossipEntry tickStart period m).Attributes = some m.Attributes ↔
      period < tickStart - m.LastGossipAttributesUpdateTime) ∧
    (buildGossipEntry tickStart period m).GroupId = m.GroupId ∧
    (buildGossipEntry tickStart period m).Id = m.Id ∧
    (buildGossipEntry tickStart period m).Revision = m.Revision ∧
    (buildGossipEntry tickStart period m).Priority = m.Priority ∧
    (buildGossipEntry tickStart period m).LeaseDeadline = m.LeaseDeadline := by
  refine ⟨?_, rfl, rfl, rfl, rfl, rfl⟩
  unfold buildGossipEntry
  by_cases h : period < tickStart - m.LastGossipAttributesUpdateTime
  · simp [h]
  · simp [h]

/-- C9: on every tick, a payload is dispatched exactly to the configured
addresses distinct from SelfAddress — an address receives a payload iff
it is configured and is not the server's own — and the server never
dispatches a payload to its own address. -/
theorem C9_peer_fanout (cfg : TDiscoveryServerConfig) (drained : List TMember)
    (tickStart : Nat) :
    (∀ a : Address,
      a ∈ (sendGossip cfg drained tickStart).payloads.map Prod.fst ↔
        (a ∈ cfg.ServerAddresses ∧ a ≠ cfg.SelfAddress)) ∧
    cfg.SelfAddress ∉ (sendGossip cfg drained tickStart).payloads.map Prod.fst := by
  constructor
  · intro a
    simp [sendGossip, List.mem_filter]
  · simp [sendGossip, List.mem_filter]

/-- C10: within a single tick every dispatched payload is identical: the
same drained members in the same order with the same per-member
attribute-attachment decision, independent of the destination peer. -/
theorem C10_identical_payloads (cfg : TDiscoveryServerConfig)
    (drained : List TMember) (tickStart : Nat)
    (a₁ a₂ : Address) (p₁ p₂ : List TGossipPayloadEntry)
    (h₁ : (a₁, p₁) ∈ (sendGossip cfg drained tickStart).payloads)
    (h₂ : (a₂, p₂) ∈ (sendGossip cfg drained tickStart).payloads) :
    p₁ = p₂ := by
  simp only [sendGossip, List.mem_map] at h₁ h₂
  obtain ⟨b₁, _, hb₁⟩ := h₁
  obtain ⟨b₂, _, hb₂⟩ := h₂
  have e₁ : p₁ = buildGossipPayload cfg drained tickStart b₁ :=
    (Prod.mk.injEq _ _ _ _ ▸ hb₁).2.symm
  have e₂ : p₂ = buildGossipPayload cfg drained tickStart b₂ :=
    (Prod.mk.injEq _ _ _ _ ▸ hb₂).2.symm
  rw [e₁, e₂]
  rfl

/-- C10 witness at a concrete two-peer configuration. -/
theorem C10_identical_payloads_witness :
    ("s1", buildGossipPayload cexFanConfig [cexMember] 100 "s1") ∈
        (sendGossip cexFanConfig [cexMember] 100).payloads ∧
    ("s2", buildGossipPayload cexFanConfig [cexMember] 100 "s2") ∈
        (sendGossip cexFanConfig [cexMember] 100).payloads ∧
    buildGossipPayload cexFanConfig [cexMember] 100 "s1" =
      buildGossipPayload cexFanConfig [cexMember] 100 "s2" :=
  ⟨by decide, by decide,
    C10_identical_payloads cexFanConfig [cexMember] 100 "s1" "s2"
      (buildGossipPayload cexFanConfig [cexMember] 100 "s1")
      (buildGossipPayload cexFanConfig [cexMember] 100 "s2")
      (by decide) (by decide)⟩

/-- C8 counterexample: with a configuration whose only address is the
server itself, no payload is dispatched in the tick, so no member's
attributes are attached to any dispatched payload; yet the drained
member passing the throttle test still has its
LastGossipAttributesPushedAt advanced to the tick start.  The update is
keyed to the throttle test, not to actual attachment. -/
theorem C8_counterexample :
    (sendGossip cexSoloConfig [cexMember] 100).payloads = [] ∧
    (sendGossip cexSoloConfig [cexMember] 100).members ≠ [cexMember] ∧
    (sendGossip cexSoloConfig [cexMember] 100).members =
      [{ cexMember with LastGossipAttributesUpdateTime := 100 }] := by
  refine ⟨by decide, by decide, by decide⟩

/-- C8 amended: at the end of every tick, LastGossipAttributesPushedAt is
set to tickStart for exactly those drained members passing the
attribute-throttle test (tickStart minus the old value strictly exceeds
AttributesUpdatePeriod) — the very test that decides attachment, so that
whenever at least one payload is dispatched these are exactly the members
whose attributes were attached — and every other drained member keeps its
previous value; members not drained are untouched by the tick. -/
theorem C8_timestamp_update (cfg : TDiscoveryServerConfig)
    (drained : List TMember) (tickStart : Nat)
    (i : Nat) (hi : i < drained.length) :
    ∃ hi' : i < (sendGossip cfg drained tickStart).members.length,
      (((sendGossip cfg drained tickStart).members.get ⟨i, hi'⟩ =
          { drained.get ⟨i, hi⟩ with LastGossipAttributesUpdateTime := tickStart } ∧
        cfg.AttributesUpdatePeriod <
          tickStart - (drained.get ⟨i, hi⟩).LastGossipAttributesUpdateTime) ∨
       ((sendGossip cfg drained tickStart).members.get ⟨i, hi'⟩ = drained.get ⟨i, hi⟩ ∧
        ¬ cfg.AttributesUpdatePeriod <
          tickStart - (drained.get ⟨i, hi⟩).LastGossipAttributesUpdateTime)) ∧
      ∀ a p, (a, p) ∈ (sendGossip cfg drained tickStart).payloads →
        ∃ hp : i < p.length,
          (p.get ⟨i, hp⟩).Attributes.isSome =
            decide (cfg.AttributesUpdatePeriod <
              tickStart - (drained.get ⟨i, hi⟩).LastGossipAttributesUpdateTime) := by
  have hlen : (sendGossip cfg drained tickStart).members.length = drained.length := by
    simp [sendGossip]
  refine ⟨hlen ▸ hi, ?_, ?_⟩
  · simp only [List.get_eq_getElem, sendGossip, List.getElem_map]
    by_cases h : cfg.AttributesUpdatePeriod <
        tickStart - drained[i].LastGossipAttributesUpdateTime
    · exact Or.inl ⟨by rw [if_pos h], h⟩
    · exact Or.inr ⟨by rw [if_neg h], h⟩
  · intro a p hp
    simp only [sendGossip, List.mem_map] at hp
    obtain ⟨b, _, hb⟩ := hp
    have ep : p = buildGossipPayload cfg drained tickStart b :=
      (Prod.mk.injEq _ _ _ _ ▸ hb).2.symm
    have hplen : p.length = drained.length := by
      rw [ep]; simp [buildGossipPayload]
    refine ⟨hplen ▸ hi, ?_⟩
    subst ep
    simp only [List.get_eq_getElem, buildGossipPayload, List.getElem_map, buildGossipEntry]
    by_cases h : cfg.AttributesUpdatePeriod <
        tickStart - drained[i].LastGossipAttributesUpdateTime
    · rw [if_pos h]
      simp [h]
    · rw [if_neg h]
      simp [h]

/-- C8 amended witness: one peer, a drained member passing the throttle
test. -/
theorem C8_timestamp_update_witness :
    ∃ hi' : 0 < (sendGossip cexPairConfig [cexMember] 100).members.length,
      (((sendGossip cexPairConfig [cexMember] 100).members.get ⟨0, hi'⟩ =
          { cexMember with LastGossipAttributesUpdateTime := 100 } ∧
        cexPairConfig.AttributesUpdatePeriod <
          100 - cexMember.LastGossipAttributesUpdateTime) ∨
       ((sendGossip cexPairConfig [cexMember] 100).members.get ⟨0, hi'⟩ = cexMember ∧
        ¬ cexPairConfig.AttributesUpdatePeriod <
          100 - cexMember.LastGossipAttributesUpdateTime)) ∧
      ∀ a p, (a, p) ∈ (sendGossip cexPairConfig [cexMember] 100).payloads →
        ∃ hp : 0 < p.length,
          (p.get ⟨0, hp⟩).Attributes.isSome =
            decide (cexPairConfig.AttributesUpdatePeriod <
              100 - cexMember.LastGossipAttributesUpdateTime) :=
  C8_timestamp_update cexPairConfig [cexMember] 100 0 (by decide)

/-- C2 counterexample: a Heartbeat request with empty groupId, empty
member id and zero lease duration is not rejected with InvalidArgument;
the handler forwards it to ProcessHeartbeat and the registry state
changes (the empty-named group and member are created). -/
theorem C2_counterexample :
    heartbeatHandler emptyGroupManager ""
        { Id := "", Priority := 0, Attributes := [] } 0 0 ≠
      Except.error TDiscoveryError.InvalidArgument ∧
    heartbeatHandler emptyGroupManager ""
        { Id := "", Priority := 0, Attributes := [] } 0 0 ≠
      Except.ok emptyGroupManager := by
  refine ⟨by decide, by decide⟩

/-- C2 amended: the Heartbeat endpoint performs no validation at all:
every request — whatever its groupId, member id and lease duration — is
forwarded to GroupManager.ProcessHeartbeat and answered with success,
and afterwards the registry holds the member with its revision bumped by
one and its lease deadline set to now + leaseDuration. -/
theorem C2_heartbeat_no_validation (gm : TGroupManager) (gid : GroupId)
    (info : TMemberInfo) (leaseTimeout now : Nat) :
    heartbeatHandler gm gid info leaseTimeout now =
      Except.ok (processHeartbeat gm gid info leaseTimeout now) ∧
    alookup info.Id
        ((alookup gid (processHeartbeat gm gid info leaseTimeout now).Groups).getD []) =
      some (updateFromHeartbeat
        ((alookup info.Id ((alookup gid gm.Groups).getD [])).getD
          (emptyMember gid info.Id))
        info leaseTimeout now) := by
  refine ⟨rfl, ?_⟩
  show alookup info.Id ((alookup gid
      (aupdate gid _ gm.Groups)).getD []) = _
  rw [alookup_aupdate_self]
  simp only [Option.getD_some]
  rw [alookup_aupdate_self]

/-- C3 counterexample: when the group "g" does not exist, the Heartbeat
endpoint does not fail with GroupNotFound: it succeeds and creates the
group, contradicting the claim's quantification over every ClientService
endpoint. -/
theorem C3_counterexample :
    alookup "g" emptyGroupManager.Groups = none ∧
    heartbeatHandler emptyGroupManager "g"
        { Id := "m1", Priority := 5, Attributes := [("host", "h1")] } 30 0 ≠
      Except.error TDiscoveryError.GroupNotFound ∧
    (alookup "g" (processHeartbeat emptyGroupManager "g"
        { Id := "m1", Priority := 5, Attributes := [("host", "h1")] } 30 0).Groups).isSome := by
  refine ⟨rfl, by decide, by decide⟩

/-- C3 amended: the query endpoints ListMembers and GetGroupMeta fail
with GroupNotFound whenever the requested group does not exist or has no
live members, returning no partial result (both are read-only and make
no state change); the Heartbeat endpoint instead creates the group. -/
theorem C3_group_not_found (gm : TGroupManager) (gid : GroupId) (now : Nat)
    (h : ∀ g, alookup gid gm.Groups = some g → liveMembers g now = []) :
    (∀ limit keys,
      listMembersHandler gm gid limit keys now =
        Except.error TDiscoveryError.GroupNotFound) ∧
    getGroupMetaHandler gm gid now =
      Except.error TDiscoveryError.GroupNotFound := by
  have hg : getGroupOrThrow gm gid now = Except.error TDiscoveryError.GroupNotFound := by
    unfold getGroupOrThrow
    cases hl : alookup gid gm.Groups with
    | none => rfl
    | some g =>
        have : liveMembers g now = [] := h g hl
        simp [this]
  constructor
  · intro limit keys
    unfold listMembersHandler
    rw [hg]
  · unfold getGroupMetaHandler
    rw [hg]

/-- C3 amended witness: empty registry, unknown group. -/
theorem C3_group_not_found_witness :
    (∀ g, alookup "g" emptyGroupManager.Groups = some g → liveMembers g 0 = []) ∧
    (∀ limit keys,
      listMembersHandler emptyGroupManager "g" limit keys 0 =
        Except.error TDiscoveryError.GroupNotFound) ∧
    getGroupMetaHandler emptyGroupManager "g" 0 =
      Except.error TDiscoveryError.GroupNotFound := by
  have h : ∀ g : TGroup, alookup "g" emptyGroupManager.Groups = some g →
      liveMembers g 0 = [] := by
    intro g hg
    simp [emptyGroupManager, alookup] at hg
  exact ⟨h, C3_group_not_found emptyGroupManager "g" 0 h⟩

/-- The ranking relation is transitive. -/
theorem memberLE_trans (a b c : TMember) :
    memberLE a b → memberLE b c → memberLE a c := by
  simp only [memberLE, Bool.or_eq_true, Bool.and_eq_true, decide_eq_true_eq]
  rintro (h1 | ⟨e1, s1⟩) (h2 | ⟨e2, s2⟩)
  · exact Or.inl (lt_trans h1 h2)
  · exact Or.inl (e2 ▸ h1)
  · exact Or.inl (e1 ▸ h2)
  · exact Or.inr ⟨e1.trans e2, le_trans s1 s2⟩

/-- The ranking relation is total. -/
theorem memberLE_total (a b : TMember) : memberLE a b || memberLE b a := by
  simp only [memberLE, Bool.or_eq_true, Bool.and_eq_true, decide_eq_true_eq]
  rcases lt_trichotomy a.Priority b.Priority with h | h | h
  · exact Or.inl (Or.inl h)
  · rcases le_total a.Id b.Id with h2 | h2
    · exact Or.inl (Or.inr ⟨h, h2⟩)
    · exact Or.inr (Or.inr ⟨h.symm, h2⟩)
  · exact Or.inr (Or.inl h)

/-- C6: for every group and limit, the list returned by ListMembers holds
at most limit entries, is sorted ascending by (priority, id) with ties
broken by lexicographic member id, and contains only members whose lease
deadline lies strictly after the query time. -/
theorem C6_list_members_order_liveness (g : TGroup) (now limit : Nat) :
    (listMembers g now limit).length ≤ limit ∧
    List.Pairwise (fun a b : TMember =>
        a.Priority < b.Priority ∨ (a.Priority = b.Priority ∧ a.Id ≤ b.Id))
      (listMembers g now limit) ∧
    ∀ m ∈ listMembers g now limit, now < m.LeaseDeadline := by
  refine ⟨?_, ?_, ?_⟩
  · exact List.length_take_le limit _
  · have hs : ((liveMembers g now).mergeSort memberLE).Pairwise
        (fun a b => memberLE a b = true) :=
      List.sorted_mergeSort memberLE_trans memberLE_total (liveMembers g now)
    have ht : (listMembers g now limit).Pairwise (fun a b => memberLE a b = true) :=
      List.Pairwise.sublist (List.take_sublist _ _) hs
    refine ht.imp ?_
    intro a b hab
    simpa only [memberLE, Bool.or_eq_true, Bool.and_eq_true, decide_eq_true_eq]
      using hab
  · intro m hm
    have h1 : m ∈ (liveMembers g now).mergeSort memberLE :=
      List.mem_of_mem_take hm
    have h2 : m ∈ liveMembers g now := List.mem_mergeSort.mp h1
    have h3 := (List.mem_filter.mp h2).2
    simpa using h3

/-- Membership in the attribute projection of the ListMembers handler. -/
theorem mem_attr_projection (keys : List AttrKey)
    (attrs : List (AttrKey × AttrValue)) (k : AttrKey) (v : AttrValue) :
    (k, v) ∈ keys.filterMap (fun k' =>
        (alookup k' attrs).map (fun w => (k', w))) ↔
      (k ∈ keys ∧ alookup k attrs = some v) := by
  rw [List.mem_filterMap]
  constructor
  · rintro ⟨a, ha, hf⟩
    rw [Option.map_eq_some'] at hf
    obtain ⟨w, hw, heq⟩ := hf
    obtain ⟨rfl, rfl⟩ := Prod.mk.injEq a w k v ▸ heq
    exact ⟨ha, hw⟩
  · rintro ⟨hk, hv⟩
    exact ⟨k, hk, by rw [hv]; rfl⟩

/-- C7: for every ListMembers request with attribute key list keys, each
returned member view carries exactly the attribute entries whose key is
requested and present in that member's attribute map — a requested key a
member lacks is omitted from that member's view — and no key list ever
makes the request fail: the handler answers success for every keys. -/
theorem C7_attribute_filtering (gm : TGroupManager) (gid : GroupId)
    (limit : Nat) (keys : List AttrKey) (now : Nat) (g : TGroup)
    (h : getGroupOrThrow gm gid now = Except.ok g) :
    ∃ views : List TMemberView,
      listMembersHandler gm gid limit keys now = Except.ok views ∧
      views.length = (listMembers g now limit).length ∧
      ∀ i (hv : i < views.length) (hm : i < (listMembers g now limit).length),
        (views.get ⟨i, hv⟩).Id = ((listMembers g now limit).get ⟨i, hm⟩).Id ∧
        (views.get ⟨i, hv⟩).Priority =
          ((listMembers g now limit).get ⟨i, hm⟩).Priority ∧
        ∀ k v, (k, v) ∈ (views.get ⟨i, hv⟩).Attributes ↔
          (k ∈ keys ∧
            alookup k ((listMembers g now limit).get ⟨i, hm⟩).Attributes = some v) := by
  refine ⟨(listMembers g now limit).map (fun m =>
      { Id := m.Id
        Priority := m.Priority
        Attributes := keys.filterMap (fun k =>
          (alookup k m.Attributes).map (fun v => (k, v))) }), ?_, ?_, ?_⟩
  · unfold listMembersHandler
    rw [h]
  · simp
  · intro i hv hm
    refine ⟨?_, ?_, ?_⟩
    · simp [List.get_eq_getElem, List.getElem_map]
    · simp [List.get_eq_getElem, List.getElem_map]
    · intro k v
      simp only [List.get_eq_getElem, List.getElem_map]
      exact mem_attr_projection keys _ k v

/-- C7 witness: a registry with one group holding one live member. -/
theorem C7_attribute_filtering_witness :
    getGroupOrThrow
        { Groups := [("g", [("m1", cexMember)])], ModifiedMembers := [] } "g" 0 =
      Except.ok [("m1", cexMember)] ∧
    ∃ views : List TMemberView,
      listMembersHandler
          { Groups := [("g", [("m1", cexMember)])], ModifiedMembers := [] }
          "g" 10 ["host", "rack"] 0 = Except.ok views ∧
      views.length = (listMembers [("m1", cexMember)] 0 10).length ∧
      ∀ i (hv : i < views.length)
          (hm : i < (listMembers [("m1", cexMember)] 0 10).length),
        (views.get ⟨i, hv⟩).Id =
          ((listMembers [("m1", cexMember)] 0 10).get ⟨i, hm⟩).Id ∧
        (views.get ⟨i, hv⟩).Priority =
          ((listMembers [("m1", cexMember)] 0 10).get ⟨i, hm⟩).Priority ∧
        ∀ k v, (k, v) ∈ (views.get ⟨i, hv⟩).Attributes ↔
          (k ∈ (["host", "rack"] : List AttrKey) ∧
            alookup k
              ((listMembers [("m1", cexMember)] 0 10).get ⟨i, hm⟩).Attributes =
              some v) := by
  refine ⟨by decide, ?_⟩
  exact C7_attribute_filtering
    { Groups := [("g", [("m1", cexMember)])], ModifiedMembers := [] }
    "g" 10 ["host", "rack"] 0 [("m1", cexMember)] (by decide)

/-- The sub-batch loop neither loses nor reorders entries. -/
theorem gossipBatchLoop_flatten (B : Nat) (batch rest : List TGossipMemberInfo) :
    (gossipBatchLoop B batch rest).flatten = batch ++ rest := by
  induction rest generalizing batch with
  | nil =>
    by_cases h : batch.isEmpty
    · simp [gossipBatchLoop, h, List.isEmpty_iff.mp h]
    · simp [gossipBatchLoop, h]
  | cons e rest ih =>
    rw [gossipBatchLoop]
    by_cases h : B ≤ (batch ++ [e]).length
    · rw [if_pos h, List.flatten_cons, ih]
      simp
    · rw [if_neg h, ih]
      simp

/-- The sub-batch loop emits at least one sub-batch when entries remain. -/
theorem gossipBatchLoop_cons_ne_nil (B : Nat) (batch : List TGossipMemberInfo)
    (e : TGossipMemberInfo) (rest : List TGossipMemberInfo) :
    gossipBatchLoop B batch (e :: rest) ≠ [] := by
  induction rest generalizing batch e with
  | nil =>
    rw [gossipBatchLoop]
    by_cases hb : B ≤ (batch ++ [e]).length
    · rw [if_pos hb]
      simp
    · rw [if_neg hb, gossipBatchLoop]
      simp
  | cons f t ih =>
    rw [gossipBatchLoop]
    by_cases hb : B ≤ (batch ++ [e]).length
    · rw [if_pos hb]
      simp
    · rw [if_neg hb]
      exact ih (batch ++ [e]) f

/-- Number of sub-batches: accumulated plus remaining entries, divided by
the batch size, rounded up. -/
theorem gossipBatchLoop_length (B : Nat) (hB : 1 ≤ B)
    (batch rest : List TGossipMemberInfo) (hb : batch.length < B) :
    (gossipBatchLoop B batch rest).length =
      (batch.length + rest.length + B - 1) / B := by
  induction rest generalizing batch with
  | nil =>
    by_cases h : batch.isEmpty
    · have hbe : batch = [] := by simpa using h
      subst hbe
      rw [gossipBatchLoop]
      simp only [List.isEmpty_nil, if_true, List.length_nil]
      exact (Nat.div_eq_of_lt (by omega)).symm
    · have hbne : batch ≠ [] := by simpa using h
      have h1 : 1 ≤ batch.length := List.length_pos.mpr hbne
      rw [gossipBatchLoop, if_neg h]
      simp only [List.length_cons, List.length_nil]
      exact (Nat.div_eq_of_lt_le (by omega) (by omega)).symm
  | cons e rest ih =>
    rw [gossipBatchLoop]
    by_cases h : B ≤ (batch ++ [e]).length
    · have hlen : batch.length + 1 = B := by
        simp only [List.length_append, List.length_cons, List.length_nil] at h
        omega
      rw [if_pos h, List.length_cons, ih [] (by simpa using hB)]
      simp only [List.length_nil, List.length_cons, Nat.zero_add]
      have harr : batch.length + (rest.length + 1) + B - 1 =
          (rest.length + B - 1) + B := by
        omega
      rw [harr, Nat.add_div_right _ (by omega)]
    · rw [if_neg h]
      rw [ih (batch ++ [e]) (by simp only [List.length_append, List.length_cons,
        List.length_nil] at h ⊢; omega)]
      congr 1
      simp only [List.length_append, List.length_cons, List.length_nil]
      omega

/-- Every sub-batch except the last has size exactly B. -/
theorem gossipBatchLoop_dropLast (B : Nat) (batch rest : List TGossipMemberInfo)
    (hb : batch.length < B) :
    ∀ c ∈ (gossipBatchLoop B batch rest).dropLast, c.length = B := by
  induction rest generalizing batch with
  | nil =>
    by_cases h : batch.isEmpty
    · simp [gossipBatchLoop, h]
    · simp [gossipBatchLoop, h]
  | cons e rest ih =>
    by_cases h : B ≤ (batch ++ [e]).length
    · have hlen : batch.length + 1 = B := by
        simp only [List.length_append, List.length_cons, List.length_nil] at h
        omega
      have hlenB : (batch ++ [e]).length = B := by
        simp only [List.length_append, List.length_cons, List.length_nil]
        omega
      have h0 : List.length ([] : List TGossipMemberInfo) < B := by
        simp only [List.length_nil]
        omega
      rw [gossipBatchLoop, if_pos h]
      cases htl : gossipBatchLoop B [] rest with
      | nil => simp
      | cons c t =>
        intro c' hc'
        rw [List.dropLast_cons₂] at hc'
        rcases List.mem_cons.mp hc' with h1 | h2
        · rw [h1]; exact hlenB
        · exact ih [] h0 c' (by rw [htl]; exact h2)
    · rw [gossipBatchLoop, if_neg h]
      have hlt : (batch ++ [e]).length < B := by
        simp only [List.length_append, List.length_cons, List.length_nil] at h ⊢
        omega
      exact ih (batch ++ [e]) hlt

/-- Size of the last sub-batch: the total entry count modulo B, or a full
B when the count is a multiple of B. -/
theorem gossipBatchLoop_getLast (B : Nat) (hB : 1 ≤ B) :
    ∀ (rest batch : List TGossipMemberInfo), batch.length < B →
      (batch = [] → rest ≠ []) →
      ∃ l, (gossipBatchLoop B batch rest).getLast? = some l ∧
        l.length = (if (batch.length + rest.length) % B = 0 then B
                    else (batch.length + rest.length) % B) := by
  intro rest
  induction rest with
  | nil =>
    intro batch hb hne
    have hbne : batch ≠ [] := fun hb0 => (hne hb0) rfl
    have h : ¬ batch.isEmpty := by simpa using hbne
    have h1 : 1 ≤ batch.length := List.length_pos.mpr hbne
    rw [gossipBatchLoop, if_neg h]
    refine ⟨batch, by simp, ?_⟩
    have hmod : (batch.length + List.length ([] : List TGossipMemberInfo)) % B =
        batch.length := by
      simp only [List.length_nil, Nat.add_zero]
      exact Nat.mod_eq_of_lt hb
    rw [hmod, if_neg (by omega)]
  | cons e rest ih =>
    intro batch hb hne
    by_cases h : B ≤ (batch ++ [e]).length
    · have hlen : batch.length + 1 = B := by
        simp only [List.length_append, List.length_cons, List.length_nil] at h
        omega
      rw [gossipBatchLoop, if_pos h]
      by_cases hrest : rest = []
      · subst hrest
        rw [gossipBatchLoop]
        simp only [List.isEmpty_nil, if_true]
        refine ⟨batch ++ [e], by simp, ?_⟩
        have htot : batch.length + (e :: ([] : List TGossipMemberInfo)).length = B := by
          simp only [List.length_cons, List.length_nil]
          omega
        rw [htot, Nat.mod_self, if_pos rfl]
        simp only [List.length_append, List.length_cons, List.length_nil]
        omega
      · obtain ⟨l, hl, hlength⟩ := ih [] (by simpa using hB) (fun _ => hrest)
        have hne2 : gossipBatchLoop B [] rest ≠ [] := by
          obtain ⟨f, t, hft⟩ := List.exists_cons_of_ne_nil hrest
          rw [hft]
          exact gossipBatchLoop_cons_ne_nil B [] f t
        obtain ⟨c, t', hct⟩ := List.exists_cons_of_ne_nil hne2
        refine ⟨l, ?_, ?_⟩
        · rw [hct] at hl ⊢
          rw [List.getLast?_cons_cons]
          exact hl
        · have harith : batch.length + (e :: rest).length = rest.length + B := by
            simp only [List.length_cons]
            omega
          rw [harith, Nat.add_mod_right]
          simpa using hlength
    · rw [gossipBatchLoop, if_neg h]
      have hlt : (batch ++ [e]).length < B := by
        simp only [List.length_append, List.length_cons, List.length_nil] at h ⊢
        omega
      obtain ⟨l, hl, hlength⟩ := ih (batch ++ [e]) hlt (fun hx => absurd hx (by simp))
      refine ⟨l, hl, ?_⟩
      have harith : (batch ++ [e]).length + rest.length =
          batch.length + (e :: rest).length := by
        simp only [List.length_append, List.length_cons, List.length_nil]
        omega
      rw [← harith]
      exact hlength

/-- The state of the receive loop is the fold of ProcessGossip over the
emitted sub-batches. -/
theorem serverProcessGossipLoop_eq (B : Nat) (gm : TGroupManager)
    (batch rest : List TGossipMemberInfo) :
    serverProcessGossipLoop B gm batch rest =
      (gossipBatchLoop B batch rest).foldl processGossip gm := by
  induction rest generalizing gm batch with
  | nil =>
    by_cases h : batch.isEmpty
    · simp [serverProcessGossipLoop, gossipBatchLoop, h]
    · simp [serverProcessGossipLoop, gossipBatchLoop, h]
  | cons e rest ih =>
    by_cases h : B ≤ (batch ++ [e]).length
    · rw [serverProcessGossipLoop, gossipBatchLoop, if_pos h, if_pos h,
        List.foldl_cons]
      exact ih _ _
    · rw [serverProcessGossipLoop, gossipBatchLoop, if_neg h, if_neg h]
      exact ih _ _

/-- Folding ProcessGossip over a sub-batch list equals one ProcessGossip
of the concatenation. -/
theorem foldl_processGossip_flatten (L : List (List TGossipMemberInfo))
    (gm : TGroupManager) :
    L.foldl processGossip gm = processGossip gm L.flatten := by
  induction L generalizing gm with
  | nil => simp [processGossip]
  | cons c t ih =>
    rw [List.foldl_cons, ih, List.flatten_cons]
    simp only [processGossip, List.foldl_append]

/-- The chunked handler computes the same state as a single batch. -/
theorem serverProcessGossip_eq_single (B : Nat) (gm : TGroupManager)
    (entries : List TGossipMemberInfo) :
    serverProcessGossip B gm entries = processGossip gm entries := by
  rw [serverProcessGossip, serverProcessGossipLoop_eq,
    foldl_processGossip_flatten, gossipBatchLoop_flatten]
  rfl

/-- C4: for every incoming ProcessGossip request with entries and batch
size B at least 1, the handler applies the entries in consecutive
sub-batches in request order (their concatenation is the request), there
are ceiling(N/B) of them, each has size exactly B except the last, whose
size is N mod B when that is nonzero and a full B otherwise, and the
final registry state equals applying all N entries as one batch. -/
theorem C4_batched_gossip (B : Nat) (gm : TGroupManager)
    (entries : List TGossipMemberInfo) (hB : 1 ≤ B) :
    (gossipSubBatches B entries).flatten = entries ∧
    (gossipSubBatches B entries).length = (entries.length + B - 1) / B ∧
    (∀ c ∈ (gossipSubBatches B entries).dropLast, c.length = B) ∧
    (entries ≠ [] →
      ∃ l, (gossipSubBatches B entries).getLast? = some l ∧
        l.length = (if entries.length % B = 0 then B else entries.length % B)) ∧
    serverProcessGossip B gm entries =
      (gossipSubBatches B entries).foldl processGossip gm ∧
    serverProcessGossip B gm entries = processGossip gm entries := by
  refine ⟨?_, ?_, ?_, ?_, ?_, ?_⟩
  · simpa using gossipBatchLoop_flatten B [] entries
  · simpa using gossipBatchLoop_length B hB [] entries (by simpa using hB)
  · exact gossipBatchLoop_dropLast B [] entries (by simpa using hB)
  · intro hne
    obtain ⟨l, h1, h2⟩ := gossipBatchLoop_getLast B hB entries [] (by simpa using hB)
      (fun _ => hne)
    exact ⟨l, h1, by simpa using h2⟩
  · exact serverProcessGossipLoop_eq B gm [] entries
  · exact serverProcessGossip_eq_single B gm entries

/-- C4 witness: five entries under batch size 2 split into sub-batches of
sizes 2, 2 and 1. -/
theorem C4_batched_gossip_witness :
    (gossipSubBatches 2 cexEntries).flatten = cexEntries ∧
    (gossipSubBatches 2 cexEntries).length = (cexEntries.length + 2 - 1) / 2 ∧
    (∀ c ∈ (gossipSubBatches 2 cexEntries).dropLast, c.length = 2) ∧
    (cexEntries ≠ [] →
      ∃ l, (gossipSubBatches 2 cexEntries).getLast? = some l ∧
        l.length = (if cexEntries.length % 2 = 0 then 2 else cexEntries.length % 2)) ∧
    serverProcessGossip 2 emptyGroupManager cexEntries =
      (gossipSubBatches 2 cexEntries).foldl processGossip emptyGroupManager ∧
    serverProcessGossip 2 emptyGroupManager cexEntries =
      processGossip emptyGroupManager cexEntries :=
  C4_batched_gossip 2 emptyGroupManager cexEntries (by decide)

/-- UpdateFromGossip never lowers the stored revision. -/
theorem updateFromGossip_revision_le (m : TMember) (g : TGossipMemberInfo) :
    m.Revision ≤ (updateFromGossip m g).Revision := by
  unfold updateFromGossip
  by_cases h : g.Revision ≤ m.Revision
  · rw [if_pos h]
  · rw [if_neg h]
    simp only []
    omega

/-- Updating one member of one group never lowers any stored revision,
provided the update itself does not. -/
theorem alookup_revision_aupdate_mono (groups : List (GroupId × TGroup))
    (gidT : GroupId) (midT : MemberId) (f : Option TMember → TMember)
    (hf : ∀ m : TMember,
      alookup midT ((alookup gidT groups).getD []) = some m →
      m.Revision ≤ (f (some m)).Revision)
    (gid' : GroupId) (mid' : MemberId) (r : Nat)
    (h : (alookup mid' ((alookup gid' groups).getD [])).map TMember.Revision =
      some r) :
    ∃ r', (alookup mid' ((alookup gid'
        (aupdate gidT (fun g? => aupdate midT f (g?.getD [])) groups)).getD [])).map
          TMember.Revision = some r' ∧ r ≤ r' := by
  by_cases hg : gidT = gid'
  · subst hg
    rw [alookup_aupdate_self]
    simp only [Option.getD_some]
    by_cases hm : midT = mid'
    · subst hm
      rw [alookup_aupdate_self]
      rw [Option.map_eq_some'] at h
      obtain ⟨m, hm1, hm2⟩ := h
      rw [hm1]
      exact ⟨(f (some m)).Revision, rfl, hm2 ▸ hf m hm1⟩
    · rw [alookup_aupdate_other _ _ hm]
      exact ⟨r, h, le_refl r⟩
  · rw [alookup_aupdate_other _ _ hg]
    exact ⟨r, h, le_refl r⟩

/-- ProcessHeartbeat never lowers any stored revision. -/
theorem memberRevision_heartbeat_mono (gm : TGroupManager) (gid : GroupId)
    (info : TMemberInfo) (leaseDuration now : Nat)
    (gid' : GroupId) (mid' : MemberId) (r : Nat)
    (h : memberRevision gm gid' mid' = some r) :
    ∃ r', memberRevision (processHeartbeat gm gid info leaseDuration now) gid' mid' =
      some r' ∧ r ≤ r' := by
  simp only [memberRevision, processHeartbeat] at h ⊢
  refine alookup_revision_aupdate_mono gm.Groups gid info.Id _ ?_ gid' mid' r h
  intro m _
  simp only [Option.getD_some, updateFromHeartbeat]
  omega

/-- Applying one gossip entry never lowers any stored revision. -/
theorem memberRevision_gossipEntry_mono (gm : TGroupManager)
    (e : TGossipMemberInfo) (gid' : GroupId) (mid' : MemberId) (r : Nat)
    (h : memberRevision gm gid' mid' = some r) :
    ∃ r', memberRevision (applyGossipEntry gm e) gid' mid' = some r' ∧ r ≤ r' := by
  simp only [memberRevision, applyGossipEntry] at h ⊢
  refine alookup_revision_aupdate_mono gm.Groups e.GroupId e.Id _ ?_ gid' mid' r h
  intro m hm
  simp only [hm, Option.getD_some]
  exact updateFromGossip_revision_le m e

/-- Applying a gossip batch never lowers any stored revision. -/
theorem memberRevision_gossip_mono (batch : List TGossipMemberInfo)
    (gm : TGroupManager) (gid' : GroupId) (mid' : MemberId) (r : Nat)
    (h : memberRevision gm gid' mid' = some r) :
    ∃ r', memberRevision (processGossip gm batch) gid' mid' = some r' ∧ r ≤ r' := by
  induction batch generalizing gm r with
  | nil => exact ⟨r, h, le_refl r⟩
  | cons e rest ih =>
    obtain ⟨r₁, h₁, hle₁⟩ := memberRevision_gossipEntry_mono gm e gid' mid' r h
    obtain ⟨r₂, h₂, hle₂⟩ := ih (applyGossipEntry gm e) r₁ h₁
    exact ⟨r₂, h₂, le_trans hle₁ hle₂⟩

/-- C5: applying UpdateFromGossip with a revision at most the member's
current one leaves the member entirely unchanged; with a strictly greater
revision it replaces the revision, priority and lease deadline (peer
deadline taken verbatim) and replaces attributes exactly when the entry
carries them, leaving identity and gossip-tracking fields alone; and for
a fixed (groupId, memberId) the stored revision never decreases along any
sequence of heartbeats and gossip applications. -/
theorem C5_gossip_revision_monotonicity :
    (∀ (m : TMember) (g : TGossipMemberInfo),
      (g.Revision ≤ m.Revision → updateFromGossip m g = m) ∧
      (m.Revision < g.Revision →
        (updateFromGossip m g).Revision = g.Revision ∧
        (updateFromGossip m g).Priority = g.Priority ∧
        (updateFromGossip m g).LeaseDeadline = g.LeaseDeadline ∧
        (updateFromGossip m g).Attributes = g.Attributes.getD m.Attributes ∧
        (updateFromGossip m g).Id = m.Id ∧
        (updateFromGossip m g).GroupId = m.GroupId ∧
        (updateFromGossip m g).LastGossipAttributesUpdateTime =
          m.LastGossipAttributesUpdateTime ∧
        (updateFromGossip m g).LastHeartbeatAt = m.LastHeartbeatAt)) ∧
    ∀ gm gm' : TGroupManager, Relation.ReflTransGen GMStep gm gm' →
      ∀ (gid : GroupId) (mid : MemberId) (r : Nat),
        memberRevision gm gid mid = some r →
        ∃ r', memberRevision gm' gid mid = some r' ∧ r ≤ r' := by
  constructor
  · intro m g
    constructor
    · intro h
      unfold updateFromGossip
      rw [if_pos h]
    · intro h
      unfold updateFromGossip
      rw [if_neg (by omega)]
      refine ⟨rfl, rfl, rfl, ?_, rfl, rfl, rfl, rfl⟩
      cases g.Attributes <;> rfl
  · intro gm gm' hchain
    induction hchain with
    | refl => exact fun gid mid r h => ⟨r, h, le_refl r⟩
    | tail hab hbc ih =>
      intro gid mid r h
      obtain ⟨r₁, h₁, hle₁⟩ := ih gid mid r h
      cases hbc with
      | heartbeat gid₀ info τ now =>
        obtain ⟨r₂, h₂, hle₂⟩ :=
          memberRevision_heartbeat_mono _ gid₀ info τ now gid mid r₁ h₁
        exact ⟨r₂, h₂, le_trans hle₁ hle₂⟩
      | gossip batch =>
        obtain ⟨r₂, h₂, hle₂⟩ :=
          memberRevision_gossip_mono batch _ gid mid r₁ h₁
        exact ⟨r₂, h₂, le_trans hle₁ hle₂⟩

/-- C5 witness: the ignore branch at a concrete member and entry, and
monotonicity along a concrete heartbeat-then-gossip chain. -/
theorem C5_gossip_revision_monotonicity_witness :
    (cexGossipEntry.Revision ≤ cexMember.Revision →
      updateFromGossip cexMember cexGossipEntry = cexMember) ∧
    (∃ r', memberRevision cexAfterGossip "g" "m1" = some r' ∧ 1 ≤ r') := by
  constructor
  · exact (C5_gossip_revision_monotonicity.1 cexMember cexGossipEntry).1
  · refine C5_gossip_revision_monotonicity.2 cexAfterHeartbeat cexAfterGossip
      ?_ "g" "m1" 1 (by decide)
    exact Relation.ReflTransGen.single (GMStep.gossip cexAfterHeartbeat [cexGossipEntry])

end DiscoveryServer
